import Mathlib

/-!
Shallow embedding of the Cijitter detection-and-mitigation control loop
(`src/gvisor/runsc/main.go`): the decision engine (`judge_delay`,
`delayStates`), one cycle of the `monitor` loop, the binary sample-log
decoder (`read_sample_logs`), and the profiler orchestration
(`get_target_addr`, `chk_prerequisites`, `exit_handler`).

Modelling conventions:
* Go `int` / `int64` values are modelled as `ℤ` (`ℕ` for loop counters and
  durations, which stay small and nonnegative in all reachable states, far
  below 2^63, so no wraparound can occur).
* Go `float64` arithmetic in `judge_delay` is modelled exactly: every float
  comparison of the source is decided in integer arithmetic with the
  positive denominators cleared and the square root eliminated by squaring
  (the lemmas `countLE_iff` and `ratioLE_iff` prove the encodings equal to
  the real-valued comparisons).  This agrees with the float computation
  whenever the latter is not within rounding error of a threshold, which
  holds at every concrete input used below.  IEEE division by zero
  (yielding +Inf or NaN, whose comparisons with a threshold are false) is
  modelled explicitly in `countLE` and `ratioLE`.
* File and process effects are modelled by passing the observed environment
  (file contents, command outcomes) as explicit arguments.
-/

namespace Cijitter

/-- The value `index % 3` as a `Fin 3`, the slot arithmetic used throughout `monitor`. -/
def fin3 (n : ℕ) : Fin 3 := ⟨n % 3, Nat.mod_lt n (by decide)⟩

/-- Global `var interval int = 500` (milliseconds), the baseline sampling interval. -/
def interval : ℕ := 500

/-- Global `var duration int = 8050` (milliseconds), the mitigation window. -/
def duration : ℕ := 8050

/-- Function `delayStates(last_delay, index, delay_interval)` from `main.go`.
The source contains a `for i:=0;i<3;i++` loop whose body tests the loop-invariant
condition `last_delay[index%3]` and returns on its first iteration if it holds;
this is equivalent to the single test written here. -/
def delayStates (last_delay : Fin 3 → Bool) (index : ℕ)
    (delay_interval : ℕ) : ℕ × Bool :=
  if index = 0 then (interval, true)
  else
    let status := last_delay (fin3 (index - 1))
    if last_delay (fin3 index) then (interval, status)
    else
      let d := delay_interval * 10
      (if d > 30000 then 30000 else d, status)

/-- Models the float comparison `count ≤ num/den` in `judge_delay`, where
`count = diff/prev` with integer `diff, prev` and `0 < den`.  The division
is exact: the comparison is decided with the positive denominators cleared
(`countLE_iff` proves this encoding equal to the real-valued comparison).
When `prev = 0` the Go computation divides by zero, producing `+Inf` (or
`NaN` when `diff = 0`), and in either case the comparison with the positive
threshold is false. -/
def countLE (diff prev : ℤ) (num den : ℕ) : Bool :=
  if prev = 0 then false
  else if 0 < prev then decide ((den : ℤ) * diff ≤ (num : ℤ) * prev)
  else decide ((num : ℤ) * prev ≤ (den : ℤ) * diff)

/-- Nine times the local `std` of `judge_delay`, as an integer:
`9 · Σ (aᵢ − sum/3)² = Σ (3aᵢ − sum)²`.  The source takes `math.Sqrt` of
`std` directly, without dividing by the number of samples. -/
def sqDev9 (access : Fin 3 → ℤ) : ℤ :=
  (3 * access 0 - (access 0 + access 1 + access 2)) ^ 2 +
    (3 * access 1 - (access 0 + access 1 + access 2)) ^ 2 +
    (3 * access 2 - (access 0 + access 1 + access 2)) ^ 2

/-- Models the float comparison `sqrt(std)/mean ≤ num/den` in `judge_delay`
(`0 < den`).  For `mean = sum/3 > 0` the square root is eliminated by
squaring and the denominators are cleared: the comparison is equivalent to
`den² · 9std ≤ num² · sum²` (`ratioLE_iff` proves the encoding equal to the
real-valued comparison).  For `mean < 0` the comparison always holds (a
nonnegative number divided by a negative one is ≤ 0); for `mean = 0` the
IEEE quotient is `+Inf` or `NaN` and the comparison fails. -/
def ratioLE (access : Fin 3 → ℤ) (num den : ℕ) : Bool :=
  if 0 < access 0 + access 1 + access 2 then
    decide ((den : ℤ) ^ 2 * sqDev9 access ≤
      (num : ℤ) ^ 2 * (access 0 + access 1 + access 2) ^ 2)
  else if access 0 + access 1 + access 2 < 0 then true
  else false

/-- The local `diff` of `judge_delay`: the absolute difference between the
current slot and slot `(index+2) % 3`, computed by the source with an
explicit comparison. -/
def idiff (access : Fin 3 → ℤ) (index : Fin 3) : ℤ :=
  if access (index + 2) < access index then access index - access (index + 2)
  else access (index + 2) - access index

/-- Function `judge_delay(access, index)` from `main.go`: the stability classifier.
`count = diff / access[(index+2)%3]` and `ratio = sqrt(std)/mean`.  Returns
`(count ≤ 0.1 ∨ ratio ≤ 0.2 ∨ (ratio ≤ 0.35 ∧ count ≤ 0.35)) ∧ ¬(mean < 100)`;
the final test `mean < 100` is decided as `sum < 300`. -/
def judge_delay (access : Fin 3 → ℤ) (index : Fin 3) : Bool :=
  if countLE (idiff access index) (access (index + 2)) 1 10 ||
      ratioLE access 1 5 ||
      (ratioLE access 35 100 &&
        countLE (idiff access index) (access (index + 2)) 35 100) then
    if access 0 + access 1 + access 2 < 300 then false else true
  else false

/-- The mean of the three window values, as a real number (spec-side view). -/
noncomputable def windowMean (access : Fin 3 → ℤ) : ℝ :=
  ((access 0 + access 1 + access 2 : ℤ) : ℝ) / 3

/-- The sum of squared deviations of the three window values (spec-side view). -/
noncomputable def windowSqDev (access : Fin 3 → ℤ) : ℝ :=
  ((access 0 : ℝ) - windowMean access) ^ 2 + ((access 1 : ℝ) - windowMean access) ^ 2 +
    ((access 2 : ℝ) - windowMean access) ^ 2

/-- The quantity the source actually divides by the mean: the square root of
the sum of squared deviations, *not* divided by the number of samples. -/
noncomputable def codeCV (access : Fin 3 → ℤ) : ℝ :=
  Real.sqrt (windowSqDev access) / windowMean access

/-- The relative delta of the claim: `|current − prev| / prev` over ℝ. -/
noncomputable def relDelta (access : Fin 3 → ℤ) (index : Fin 3) : ℝ :=
  |(access index : ℝ) - (access (index + 2) : ℝ)| / (access (index + 2) : ℝ)

/-- The claim's formula for `isSuspicious`, with `stddev` read as the
standard deviation of the three values (the square root of the *mean*
squared deviation). -/
def isSuspiciousSpec (access : Fin 3 → ℤ) (index : Fin 3) : Prop :=
  (relDelta access index ≤ 1 / 10 ∨
      Real.sqrt (windowSqDev access / 3) / windowMean access ≤ 1 / 5 ∨
      (Real.sqrt (windowSqDev access / 3) / windowMean access ≤ 35 / 100 ∧
        relDelta access index ≤ 35 / 100)) ∧
    100 ≤ windowMean access

/-- The classifier formula with the normalisation the source actually uses:
the square root of the (unnormalised) sum of squared deviations divided by
the mean. -/
def isSuspiciousUnnormalized (access : Fin 3 → ℤ) (index : Fin 3) : Prop :=
  (relDelta access index ≤ 1 / 10 ∨ codeCV access ≤ 1 / 5 ∨
      (codeCV access ≤ 35 / 100 ∧ relDelta access index ≤ 35 / 100)) ∧
    100 ≤ windowMean access

/-- The mutable state of the `monitor` loop: the 3-slot access-count window
`last_addr_acc`, the per-slot mitigation flags `last_delay`, the cycle
counter `index` and the current sampling interval `delay_interval`. -/
structure MonState where
  last_addr_acc : Fin 3 → ℤ
  last_delay : Fin 3 → Bool
  index : ℕ
  delay_interval : ℕ

/-- The initial state of `monitor`: all three `last_addr_acc` slots 500,
`last_delay = {true,true,true}`, `index = 0`, interval 500 ms. -/
def initMonState : MonState :=
  { last_addr_acc := fun _ => 500, last_delay := fun _ => true,
    index := 0, delay_interval := interval }

/-- Go `strings.Contains(s, "0x")` on the character list of `s`. -/
def containsOx : List Char → Bool
  | '0' :: 'x' :: _ => true
  | _ :: rest => containsOx rest
  | [] => false

/-- The stop directive `"0x00000 0"` sent after every mitigation window. -/
def stopSig : String := "0x00000 0"

/-- The noise-compensated access count `acc_cmp` of a cycle: when the prior
status `dstats` holds and the raw count dropped below the comparable slot
`(inx+2) % 3`, blend with `acc_num + int(float64(last_acc - acc_num) * 0.67)`.
The truncated float product equals `67 * (last_acc - acc_num) / 100` for all
magnitudes occurring here (the product is positive in this branch, so integer
division truncates the same way Go's `int(·)` does). -/
def adjustedCount (st : MonState) (acc_num : ℤ) : ℤ :=
  let inx := fin3 st.index
  let last_acc := st.last_addr_acc (inx + 2)
  let dstats := (delayStates st.last_delay st.index st.delay_interval).2
  if dstats && decide (acc_num < last_acc) then
    acc_num + 67 * (last_acc - acc_num) / 100
  else acc_num

/-- The window after `last_addr_acc[inx] = acc_cmp` (before any restore). -/
def updatedWindow (st : MonState) (acc_num : ℤ) : Fin 3 → ℤ :=
  Function.update st.last_addr_acc (fin3 st.index) (adjustedCount st acc_num)

/-- One iteration of the `monitor` loop after `get_target_addr` succeeded
with address string `addr` and count `acc_num`.  Returns the new state and
the messages handed to `msgChan`, in order.  Sleeps are not modelled.
Control flow of the source: the `acc_num > 3000` branch restores the slot's
old value but does *not* `continue`, so it falls through to the mitigation
block; only the noise branch (`acc_cmp ≤ 80 || !judge_delay`) skips it.
The mitigation block sends `addr_acc` when `addr` contains `"0x"`, then the
stop directive, sets `last_delay[inx] = true` and resets the interval. -/
def monitorCycle (st : MonState) (addr : String) (acc_num : ℤ) :
    MonState × List String :=
  let addr_acc := addr ++ " " ++ toString acc_num
  let inx := fin3 st.index
  let di := delayStates st.last_delay st.index st.delay_interval
  let old_acc := st.last_addr_acc inx
  let arr1 := updatedWindow st acc_num
  if 3000 < acc_num then
    ({ last_addr_acc := Function.update arr1 inx old_acc,
       last_delay := Function.update st.last_delay inx true,
       index := st.index + 1, delay_interval := interval },
     (if containsOx addr.data then [addr_acc] else []) ++ [stopSig])
  else if adjustedCount st acc_num ≤ 80 || !judge_delay arr1 inx then
    ({ last_addr_acc := if di.2 then Function.update arr1 inx old_acc else arr1,
       last_delay := Function.update st.last_delay inx false,
       index := st.index + 1, delay_interval := di.1 }, [])
  else
    ({ last_addr_acc := arr1,
       last_delay := Function.update st.last_delay inx true,
       index := st.index + 1, delay_interval := interval },
     (if containsOx addr.data then [addr_acc] else []) ++ [stopSig])

/-- Run `monitorCycle` over a list of successive successful observations,
concatenating the messages handed to the outbound channel. -/
def monitorRun (st : MonState) : List (String × ℤ) → MonState × List String
  | [] => (st, [])
  | (a, n) :: rest =>
    let c := monitorCycle st a n
    let r := monitorRun c.1 rest
    (r.1, c.2 ++ r.2)

/-- Scan a directive trace with an "is a mitigation currently active" flag:
a stop directive clears the flag, a start directive while one is already
active is a violation.  `scanOK false tr = true` says the trace `tr` never
has two starts without an intervening stop. -/
def scanOK : Bool → List String → Bool
  | _, [] => true
  | active, m :: rest =>
    if m = stopSig then scanOK false rest else !active && scanOK true rest

/-- The little-endian value of a byte list (bytes are naturals `< 256`;
`leVal` is used only on lists produced by a file, via `encodeWord`, or on
explicit byte constants). -/
def leVal : List ℕ → ℕ
  | [] => 0
  | b :: bs => b + 256 * leVal bs

/-- The signed 64-bit value with unsigned representation `w % 2^64`. -/
def word64 (w : ℕ) : ℤ :=
  if w % 2 ^ 64 < 2 ^ 63 then ((w % 2 ^ 64 : ℕ) : ℤ)
  else ((w % 2 ^ 64 : ℕ) : ℤ) - 2 ^ 64

/-- Go `binary.Read(..., binary.LittleEndian, &k)` on a full 8-byte chunk:
the decoded `int64`. -/
def int64OfChunk (l : List ℕ) : ℤ := word64 (leVal l)

/-- Lowercase hexadecimal digits of a natural number, as in Go's `%x`. -/
def hexOfNat (n : ℕ) : String := (Nat.toDigits 16 n).asString

/-- Go `fmt.Sprintf("0x%x", k)` for an `int64` value `k`: the literal prefix
`0x` followed by `%x` of `k`, which for a negative value is a minus sign and
the hex digits of its absolute value. -/
def fmtAddr (k : ℤ) : String :=
  if k < 0 then "0x-" ++ hexOfNat k.natAbs else "0x" ++ hexOfNat k.toNat

/-- The successive buffers returned by `fp.Read(data)` with an 8-byte buffer
on a regular file holding `l`: full 8-byte chunks while at least 8 bytes
remain, then one short chunk of the remaining 1–7 bytes, then EOF. -/
def chunks8 : List ℕ → List (List ℕ)
  | [] => []
  | b0 :: b1 :: b2 :: b3 :: b4 :: b5 :: b6 :: b7 :: rest =>
    [b0, b1, b2, b3, b4, b5, b6, b7] :: chunks8 rest
  | l => [l]

/-- The loop state of `read_sample_logs`: the last successfully decoded word
`k`, the current address string `addr`, the word index, the index `loc` at
which the current address's count is expected, and the two results. -/
structure LogState where
  k : ℤ
  addr : String
  index : ℕ
  loc : ℕ
  addrs_order : List String
  addr_access : String → Option ℤ

/-- The state of `read_sample_logs` before its read loop:
`var k int64` (zero value), `addr := "0x000000"`, `index = 0`, `loc = 0`,
empty results. -/
def initLogState : LogState :=
  { k := 0, addr := "0x000000", index := 0, loc := 0,
    addrs_order := [], addr_access := fun _ => none }

/-- One iteration of the read loop of `read_sample_logs` on the buffer
`chunk` returned by `fp.Read`.  On a short chunk `binary.Read` fails and is
ignored, leaving `k` at its previous value — the body still runs with that
stale `k`.  At `index % 3 == 0` the word is formatted as an address and
appended to `addrs_order`, and `loc := index + 2`; at `index == loc` the word
is stored as the current address's access count. -/
def readStep (st : LogState) (chunk : List ℕ) : LogState :=
  let k := if chunk.length = 8 then int64OfChunk chunk else st.k
  let st1 :=
    if st.index % 3 = 0 then
      { st with
        k := k
        addr := fmtAddr k
        addrs_order := st.addrs_order ++ [fmtAddr k]
        loc := st.index + 2 }
    else { st with k := k }
  let st2 :=
    if st.index = st1.loc then
      { st1 with addr_access :=
          fun a => if a = st1.addr then some k else st1.addr_access a }
    else st1
  { st2 with index := st.index + 1 }

/-- Function `read_sample_logs()` from `main.go`, as a function of the contents of
`logPath` (`none` models `os.Open` failing: the function returns its empty
results rather than an error). -/
def read_sample_logs (file : Option (List ℕ)) : List String × (String → Option ℤ) :=
  match file with
  | none => ([], fun _ => none)
  | some bytes =>
    let st := (chunks8 bytes).foldl readStep initLogState
    (st.addrs_order, st.addr_access)

/-- The 8-byte little-endian encoding of the word `w`. -/
def encodeWord (w : ℕ) : List ℕ :=
  [w % 256, w / 256 % 256, w / 256 ^ 2 % 256, w / 256 ^ 3 % 256,
   w / 256 ^ 4 % 256, w / 256 ^ 5 % 256, w / 256 ^ 6 % 256, w / 256 ^ 7 % 256]

/-- A well-formed 24-byte record `[address, padding, count]`. -/
def encodeTriple (t : ℕ × ℕ × ℕ) : List ℕ :=
  encodeWord t.1 ++ encodeWord t.2.1 ++ encodeWord t.2.2

/-- A log file consisting of the given records in order. -/
def encodeLog (ts : List (ℕ × ℕ × ℕ)) : List ℕ :=
  (ts.map encodeTriple).flatten

/-- The address string under which a record is reported. -/
def specAddr (t : ℕ × ℕ × ℕ) : String := fmtAddr (word64 t.1)

/-- The access count a record carries (as the decoded signed word). -/
def specCount (t : ℕ × ℕ × ℕ) : ℤ := word64 t.2.2

/-- The count of the *last* record of `ts` whose address formats to `a`,
if any: the mapping the decoder is claimed to produce. -/
def lastCount (ts : List (ℕ × ℕ × ℕ)) (a : String) : Option ℤ :=
  (ts.reverse.find? fun t => specAddr t == a).map specCount

/-- Storing one record's count under its address string, as the decoder's
map assignment does. -/
def storeCount (f : String → Option ℤ) (t : ℕ × ℕ × ℕ) : String → Option ℤ :=
  fun a => if a = specAddr t then some (specCount t) else f a

/-- The decoder's mapping after storing the records of `ts`, in order, on
top of `f`. -/
def updAll (f : String → Option ℤ) (ts : List (ℕ × ℕ × ℕ)) : String → Option ℤ :=
  ts.foldl storeCount f

/-- The interval sequence produced by `delayStates` over consecutive cycles
none of whose slots was ever mitigated (all flags false), starting at
cycle 0 from the baseline interval. -/
def noMitSeq : ℕ → ℕ
  | 0 => (delayStates (fun _ => false) 0 interval).1
  | i + 1 => (delayStates (fun _ => false) (i + 1) (noMitSeq i)).1

/-- The outcomes of the system interactions `get_target_addr` and
`chk_prerequisites` perform, passed in explicitly: the pid list computed by
`get_pid()`; whether `os.Stat(DBGFS)` reports an existing directory; whether
the `insmod` command (run only when it does not) succeeds; whether the
`pids` control file exists and is not a directory; whether `rmmod` succeeds;
and the contents of the trace log after the sampling window (`none` when it
cannot be opened). -/
structure SysEnv where
  targets : List String
  dbgfsIsDir : Bool
  insmodOk : Bool
  pidsFileGood : Bool
  rmmodOk : Bool
  log : Option (List ℕ)

/-- Function `chk_prerequisites()` from `main.go`.  The initial best-effort rename of
the previous log file has no bearing on the returned value and is not
modelled.  If the profiler's control directory is absent the kernel module
is inserted, and an insertion failure returns `false`; then the `pids`
control file must exist and not be a directory. -/
def chk_prerequisites (env : SysEnv) : Bool :=
  if !env.dbgfsIsDir then
    if !env.insmodOk then false else env.pidsFileGood
  else env.pidsFileGood

/-- Function `exit_handler()` from `main.go`: `sudo rmmod daptrace`, reporting success. -/
def exit_handler (env : SysEnv) : Bool := env.rmmodOk

/-- Go map lookup `addrs_access[addr]`: a missing key yields the zero value. -/
def lookup0 (m : String → Option ℤ) (a : String) : ℤ := (m a).getD 0

/-- Function `get_target_addr()` from `main.go`.  The source iterates
`for _, pid := range targets`, but every path through the body leaves the
loop on its first iteration (each branch either `return`s or `break`s), so
only the head of the pid list matters and no retry ever happens; the loop is
therefore modelled by a match on the head.  Error paths return
`("", -1, false)`.  On success the result is the first decoded address and
its count in the decoded mapping. -/
def get_target_addr (env : SysEnv) : String × ℤ × Bool :=
  match env.targets with
  | [] => ("", -1, false)
  | _pid :: _ =>
    if !chk_prerequisites env then ("", -1, false)
    else if !exit_handler env then ("", -1, false)
    else
      match (read_sample_logs env.log).1 with
      | [] => ("", -1, false)
      | a :: _ => (a, lookup0 (read_sample_logs env.log).2 a, true)

/-! ### Bridging the exact integer classifier to its real-valued reading -/

theorem windowMean_pos (access : Fin 3 → ℤ)
    (h : 0 < access 0 + access 1 + access 2) : 0 < windowMean access := by
  unfold windowMean
  have : (0 : ℝ) < ((access 0 + access 1 + access 2 : ℤ) : ℝ) := by exact_mod_cast h
  linarith

theorem sqDev9_cast (access : Fin 3 → ℤ) :
    ((sqDev9 access : ℤ) : ℝ) = 9 * windowSqDev access := by
  unfold sqDev9 windowSqDev windowMean
  push_cast
  ring

theorem idiff_cast (access : Fin 3 → ℤ) (index : Fin 3) :
    ((idiff access index : ℤ) : ℝ) = |(access index : ℝ) - (access (index + 2) : ℝ)| := by
  unfold idiff
  by_cases h : access (index + 2) < access index
  · rw [if_pos h, abs_of_pos (by exact_mod_cast sub_pos.mpr h)]
    push_cast
    ring
  · rw [if_neg h,
      abs_of_nonpos (by exact_mod_cast sub_nonpos.mpr (not_lt.1 h))]
    push_cast
    ring

theorem countLE_zero (diff : ℤ) (num den : ℕ) : countLE diff 0 num den = false := by
  simp [countLE]

/-- The squared, denominator-cleared encoding of `sqrt(std)/mean ≤ num/den`
is exact when the mean is positive. -/
theorem ratioLE_iff (access : Fin 3 → ℤ) (num den : ℕ) (hden : 0 < den)
    (hm : 0 < access 0 + access 1 + access 2) :
    ratioLE access num den = true ↔
      Real.sqrt (windowSqDev access) / windowMean access ≤ (num : ℝ) / (den : ℝ) := by
  have hmR : (0 : ℝ) < windowMean access := windowMean_pos access hm
  have hdR : (0 : ℝ) < (den : ℝ) := by exact_mod_cast hden
  have hsum : ((access 0 + access 1 + access 2 : ℤ) : ℝ) = 3 * windowMean access := by
    unfold windowMean
    push_cast
    ring
  rw [ratioLE, if_pos hm, decide_eq_true_eq, div_le_iff₀ hmR,
    Real.sqrt_le_left (by positivity)]
  constructor
  · intro h
    have hR : ((den : ℝ) ^ 2 * ((sqDev9 access : ℤ) : ℝ) ≤
        (num : ℝ) ^ 2 * (((access 0 + access 1 + access 2 : ℤ) : ℝ)) ^ 2) := by
      exact_mod_cast h
    rw [sqDev9_cast, hsum] at hR
    rw [show ((num : ℝ) / (den : ℝ) * windowMean access) ^ 2 =
      (num : ℝ) ^ 2 * windowMean access ^ 2 / (den : ℝ) ^ 2 by ring]
    rw [le_div_iff₀ (by positivity)]
    nlinarith [sq_nonneg ((den : ℝ))]
  · intro h
    have hR : (den : ℝ) ^ 2 * ((sqDev9 access : ℤ) : ℝ) ≤
        (num : ℝ) ^ 2 * (((access 0 + access 1 + access 2 : ℤ) : ℝ)) ^ 2 := by
      rw [sqDev9_cast, hsum]
      rw [show ((num : ℝ) / (den : ℝ) * windowMean access) ^ 2 =
        (num : ℝ) ^ 2 * windowMean access ^ 2 / (den : ℝ) ^ 2 by ring,
        le_div_iff₀ (by positivity)] at h
      nlinarith
    exact_mod_cast hR

/-- The denominator-cleared `count ≤ num/den` comparison agrees with the
claim's relative delta whenever the comparison value is nonzero. -/
theorem countLE_iff (access : Fin 3 → ℤ) (index : Fin 3) (num den : ℕ)
    (hden : 0 < den) (h : access (index + 2) ≠ 0) :
    countLE (idiff access index) (access (index + 2)) num den = true ↔
      relDelta access index ≤ (num : ℝ) / (den : ℝ) := by
  have hdR : (0 : ℝ) < (den : ℝ) := by exact_mod_cast hden
  unfold relDelta
  rw [countLE, if_neg h, ← idiff_cast]
  rcases lt_trichotomy (access (index + 2)) 0 with hp | hp | hp
  · have hpR : ((access (index + 2) : ℤ) : ℝ) < 0 := by exact_mod_cast hp
    rw [if_neg (by omega), decide_eq_true_eq]
    rw [div_le_iff_of_neg hpR, div_mul_eq_mul_div, div_le_iff₀ hdR]
    constructor
    · intro hx
      have hxR : ((num : ℤ) : ℝ) * ((access (index + 2) : ℤ) : ℝ) ≤
          ((den : ℤ) : ℝ) * ((idiff access index : ℤ) : ℝ) := by exact_mod_cast hx
      push_cast at hxR ⊢
      linarith
    · intro hx
      have hxR : ((num : ℝ)) * ((access (index + 2) : ℤ) : ℝ) ≤
          ((den : ℝ)) * ((idiff access index : ℤ) : ℝ) := by linarith
      exact_mod_cast hxR
  · exact absurd hp h
  · have hpR : (0 : ℝ) < ((access (index + 2) : ℤ) : ℝ) := by exact_mod_cast hp
    rw [if_pos hp, decide_eq_true_eq]
    rw [div_le_div_iff₀ hpR hdR]
    constructor
    · intro hx
      have hxR : ((den : ℝ)) * ((idiff access index : ℤ) : ℝ) ≤
          ((num : ℝ)) * ((access (index + 2) : ℤ) : ℝ) := by exact_mod_cast hx
      linarith
    · intro hx
      have hxR : ((den : ℤ) : ℝ) * ((idiff access index : ℤ) : ℝ) ≤
          ((num : ℤ) : ℝ) * ((access (index + 2) : ℤ) : ℝ) := by
        push_cast
        linarith
      exact_mod_cast hxR

/-- When the mean is below 100 (the sum below 300) the classifier rejects. -/
theorem judge_delay_low_mean (access : Fin 3 → ℤ) (index : Fin 3)
    (hm : access 0 + access 1 + access 2 < 300) : judge_delay access index = false := by
  unfold judge_delay
  simp only [if_pos hm, ite_self]

theorem ite_true_false_eq (b : Bool) : (if b = true then true else false) = b := by
  cases b <;> simp

/-- The boolean stability condition of `judge_delay`, read over ℝ, for a
nonzero comparison value and a positive mean. -/
theorem stable_cond_iff (access : Fin 3 → ℤ) (index : Fin 3)
    (h : access (index + 2) ≠ 0) (hmpos : 0 < access 0 + access 1 + access 2) :
    (countLE (idiff access index) (access (index + 2)) 1 10 ||
        ratioLE access 1 5 ||
        (ratioLE access 35 100 &&
          countLE (idiff access index) (access (index + 2)) 35 100)) = true ↔
      (relDelta access index ≤ 1 / 10 ∨ codeCV access ≤ 1 / 5 ∨
        (codeCV access ≤ 35 / 100 ∧ relDelta access index ≤ 35 / 100)) := by
  simp only [Bool.or_eq_true, Bool.and_eq_true]
  rw [countLE_iff access index 1 10 (by norm_num) h,
    countLE_iff access index 35 100 (by norm_num) h,
    ratioLE_iff access 1 5 (by norm_num) hmpos,
    ratioLE_iff access 35 100 (by norm_num) hmpos]
  unfold codeCV
  norm_num
  exact or_assoc

/-! ### Claim theorems -/

/-- C1 (amended): for every window with a nonzero comparison value
`access[(index+2) % 3]`, `judge_delay` returns true iff the window is stable
— `relativeDelta ≤ 0.1`, or `ratio ≤ 0.2`, or (`ratio ≤ 0.35` and
`relativeDelta ≤ 0.35`), where `ratio` is the square root of the
*unnormalised* sum of squared deviations divided by the mean (the source
does not divide by the number of samples, so this is √3 times the standard
deviation over the mean) — and `mean ≥ 100`.  (The zero comparison-value
case follows IEEE division semantics and is settled separately.) -/
theorem c1_judge_delay_unnormalized (access : Fin 3 → ℤ) (index : Fin 3)
    (h : access (index + 2) ≠ 0) :
    judge_delay access index = true ↔ isSuspiciousUnnormalized access index := by
  by_cases hm : access 0 + access 1 + access 2 < 300
  · have hmR : windowMean access < 100 := by
      unfold windowMean
      have : ((access 0 + access 1 + access 2 : ℤ) : ℝ) < 300 := by exact_mod_cast hm
      linarith
    rw [judge_delay_low_mean access index hm]
    refine iff_of_false (by simp) fun hs => ?_
    unfold isSuspiciousUnnormalized at hs
    exact absurd hs.2 (not_le.2 hmR)
  · have hm300 : (300 : ℤ) ≤ access 0 + access 1 + access 2 := not_lt.1 hm
    have hmpos : (0 : ℤ) < access 0 + access 1 + access 2 := by linarith
    have hmR : (100 : ℝ) ≤ windowMean access := by
      unfold windowMean
      have : (300 : ℝ) ≤ ((access 0 + access 1 + access 2 : ℤ) : ℝ) := by exact_mod_cast hm300
      linarith
    unfold judge_delay isSuspiciousUnnormalized
    rw [if_neg hm, ite_true_false_eq, stable_cond_iff access index h hmpos]
    exact (and_iff_left hmR).symm

/-- C1 witness for the amended theorem: the all-200 window has a nonzero
comparison value and satisfies the equivalence. -/
theorem c1_judge_delay_unnormalized_witness :
    (![200, 200, 200] : Fin 3 → ℤ) ((0 : Fin 3) + 2) ≠ 0 ∧
      (judge_delay ![200, 200, 200] 0 = true ↔
        isSuspiciousUnnormalized ![200, 200, 200] 0) :=
  ⟨by decide, c1_judge_delay_unnormalized ![200, 200, 200] 0 (by decide)⟩

/-- C1 counterexample: at the window `[138, 100, 100]` with current slot 0,
the claim's formula (with `stddev` the standard deviation of the three
values) is satisfied — the coefficient of variation is ≈0.159 ≤ 0.2 and the
mean is ≈112.7 ≥ 100 — yet `judge_delay` returns false, because the source
compares `sqrt(Σ(aᵢ−mean)²)/mean ≈ 0.275 > 0.2` and the relative delta is
0.38 > 0.35. -/
theorem c1_counterexample :
    isSuspiciousSpec ![138, 100, 100] 0 ∧ judge_delay ![138, 100, 100] 0 = false := by
  constructor
  · unfold isSuspiciousSpec
    refine ⟨Or.inr (Or.inl ?_), ?_⟩
    · have h1 : windowMean ![138, 100, 100] = 338 / 3 := by
        unfold windowMean
        norm_num
      have h2 : windowSqDev ![138, 100, 100] = 8664 / 9 := by
        unfold windowSqDev
        rw [h1]
        norm_num
      rw [h1, h2, div_le_iff₀ (by norm_num)]
      rw [Real.sqrt_le_left (by norm_num)]
      norm_num
    · have h1 : windowMean ![138, 100, 100] = 338 / 3 := by
        unfold windowMean
        norm_num
      rw [h1]
      norm_num
  · decide

/-- C10: `judge_delay` is total for every integer window and slot index (it
is a Lean function); when the comparison value `access[(index+2) % 3]` is
zero, the IEEE division by zero makes both relative-delta comparisons false
(modelled exactly by `countLE`), so the classifier can accept only through
the coefficient-of-variation test: it returns true iff
`sqrt(Σ(aᵢ−mean)²)/mean ≤ 0.2` and `mean ≥ 100`. -/
theorem c10_zero_prev_only_cv (access : Fin 3 → ℤ) (index : Fin 3)
    (h : access (index + 2) = 0) :
    judge_delay access index = true ↔
      (codeCV access ≤ 1 / 5 ∧ 100 ≤ windowMean access) := by
  unfold judge_delay
  rw [h, countLE_zero, countLE_zero]
  simp only [Bool.false_or, Bool.and_false, Bool.or_false]
  by_cases hm : access 0 + access 1 + access 2 < 300
  · have hmR : windowMean access < 100 := by
      unfold windowMean
      have : ((access 0 + access 1 + access 2 : ℤ) : ℝ) < 300 := by exact_mod_cast hm
      linarith
    simp only [if_pos hm, ite_self]
    exact iff_of_false (by simp) fun hs => absurd hs.2 (not_le.2 hmR)
  · have hm300 : (300 : ℤ) ≤ access 0 + access 1 + access 2 := not_lt.1 hm
    have hmpos : (0 : ℤ) < access 0 + access 1 + access 2 := by linarith
    have hmR : (100 : ℝ) ≤ windowMean access := by
      unfold windowMean
      have : (300 : ℝ) ≤ ((access 0 + access 1 + access 2 : ℤ) : ℝ) := by exact_mod_cast hm300
      linarith
    rw [if_neg hm, ite_true_false_eq,
      ratioLE_iff access 1 5 (by norm_num) hmpos]
    unfold codeCV
    norm_num
    intro hcv
    exact hmR

/-- C10 witness: the window `[0, 300, 300]` at slot 1 has comparison value
`access[(1+2) % 3] = access[0] = 0`, and the equivalence holds there. -/
theorem c10_zero_prev_only_cv_witness :
    (![0, 300, 300] : Fin 3 → ℤ) ((1 : Fin 3) + 2) = 0 ∧
      (judge_delay ![0, 300, 300] 1 = true ↔
        (codeCV ![0, 300, 300] ≤ 1 / 5 ∧ 100 ≤ windowMean ![0, 300, 300])) :=
  ⟨by decide, c10_zero_prev_only_cv ![0, 300, 300] 1 (by decide)⟩

theorem delayStates_pos (ld : Fin 3 → Bool) (v : ℕ) (i : ℕ) (hi : 0 < i) :
    delayStates ld i v =
      ((if ld (fin3 i) then 500 else min (v * 10) 30000), ld (fin3 (i - 1))) := by
  unfold delayStates
  rw [if_neg (by omega)]
  by_cases hb : ld (fin3 i) = true
  · rw [if_pos hb, if_pos hb]
    rfl
  · rw [if_neg hb, if_neg hb]
    simp only [gt_iff_lt]
    rcases le_or_lt (v * 10) 30000 with h | h
    · rw [if_neg (not_lt.2 h), Nat.min_eq_left h]
    · rw [if_pos h, Nat.min_eq_right (le_of_lt h)]

theorem noMitSeq_ge_two (j : ℕ) (hj : 2 ≤ j) : noMitSeq j = 30000 := by
  induction j with
  | zero => omega
  | succ n ih =>
    rcases Nat.lt_or_ge n 2 with hn | hn
    · interval_cases n
      · omega
      · decide
    · have h30 := ih (by omega)
      show (delayStates (fun _ => false) (n + 1) (noMitSeq n)).1 = 30000
      rw [h30, delayStates_pos _ _ _ (by omega)]
      norm_num

/-- C2: `delayStates` returns `(500 ms, true)` at cycle 0; for `i > 0` it
returns the baseline 500 ms when the slot about to be overwritten
(`i mod 3`) was mitigated on its last visit and otherwise
`min(v × 10, 30000 ms)`, together with the prior mitigation status — the
flag of slot `(i−1) mod 3`; hence a sequence of cycles with no mitigation
produces intervals 500, 5000, 30000, 30000, …, never exceeding the
ceiling. -/
theorem c2_intervalPolicy :
    (∀ (ld : Fin 3 → Bool) (v : ℕ), delayStates ld 0 v = (500, true)) ∧
    (∀ (ld : Fin 3 → Bool) (v i : ℕ), 0 < i →
      delayStates ld i v =
        ((if ld (fin3 i) then 500 else min (v * 10) 30000), ld (fin3 (i - 1)))) ∧
    noMitSeq 0 = 500 ∧ noMitSeq 1 = 5000 ∧
    (∀ j, 2 ≤ j → noMitSeq j = 30000) ∧ (∀ j, noMitSeq j ≤ 30000) := by
  refine ⟨fun ld v => rfl, fun ld v i hi => delayStates_pos ld v i hi, rfl, rfl,
    noMitSeq_ge_two, fun j => ?_⟩
  rcases Nat.lt_or_ge j 2 with hj | hj
  · interval_cases j
    · decide
    · decide
  · rw [noMitSeq_ge_two j hj]

/-- C2 witness: instantiating the cycle-`i > 0` clause at an unmitigated
window with the baseline interval gives the escalated interval 5000 ms. -/
theorem c2_intervalPolicy_witness :
    0 < 1 ∧ delayStates (fun _ => false) 1 500 = (5000, false) := by
  refine ⟨by norm_num, ?_⟩
  have h := c2_intervalPolicy.2.1 (fun _ => false) 500 1 (by norm_num)
  simpa using h

/-- C5 counterexample: from the monitor's initial state, a cycle observing
the well-formed address `0xdead` with raw access count 3001 (> 3000, an
outlier whose window update is discarded) nevertheless hands the start
directive `"0xdead 3001"` to the outbound channel: the outlier branch of
`monitor` restores the slot but does not skip the mitigation block. -/
theorem c5_counterexample :
    3000 < (3001 : ℤ) ∧
      (monitorCycle initMonState "0xdead" 3001).2 = ["0xdead 3001", "0x00000 0"] := by
  decide

/-- C5 (amended): a start directive (a handed-over message other than the
stop directive) is produced only if the sampled address contains `"0x"` and
either the raw access count exceeds 3000 (the outlier branch: the slot is
restored, yet mitigation still fires) or the cycle update committed the
adjusted value (adjusted count > 80 and `judge_delay` accepted the updated
window). -/
theorem c5_start_directive_condition (st : MonState) (addr : String) (acc_num : ℤ)
    (m : String) (hm : m ∈ (monitorCycle st addr acc_num).2) (hne : m ≠ stopSig) :
    containsOx addr.data = true ∧
      (3000 < acc_num ∨
        (80 < adjustedCount st acc_num ∧
          judge_delay (updatedWindow st acc_num) (fin3 st.index) = true)) := by
  simp only [monitorCycle] at hm
  by_cases h1 : 3000 < acc_num
  · rw [if_pos h1] at hm
    by_cases hc : containsOx addr.data = true
    · rw [if_pos hc] at hm
      simp only [List.cons_append, List.nil_append, List.mem_cons,
        List.mem_singleton] at hm
      rcases hm with hm | hm | hm
      · exact ⟨hc, Or.inl h1⟩
      · exact absurd hm hne
      · simp at hm
    · rw [if_neg hc] at hm
      simp only [List.nil_append, List.mem_cons] at hm
      rcases hm with hm | hm
      · exact absurd hm hne
      · simp at hm
  · rw [if_neg h1] at hm
    by_cases h2 : (decide (adjustedCount st acc_num ≤ 80) ||
        !judge_delay (updatedWindow st acc_num) (fin3 st.index)) = true
    · rw [if_pos h2] at hm
      simp at hm
    · rw [if_neg h2] at hm
      simp only [Bool.or_eq_true, decide_eq_true_eq, Bool.not_eq_true',
        not_or] at h2
      rcases h2 with ⟨h2a, h2b⟩
      have hjd : judge_delay (updatedWindow st acc_num) (fin3 st.index) = true := by
        rcases Bool.eq_false_or_eq_true
            (judge_delay (updatedWindow st acc_num) (fin3 st.index)) with hb | hb
        · exact hb
        · exact absurd hb h2b
      by_cases hc : containsOx addr.data = true
      · rw [if_pos hc] at hm
        simp only [List.cons_append, List.nil_append, List.mem_cons,
          List.mem_singleton] at hm
        rcases hm with hm | hm | hm
        · exact ⟨hc, Or.inr ⟨by omega, hjd⟩⟩
        · exact absurd hm hne
        · simp at hm
      · rw [if_neg hc] at hm
        simp only [List.nil_append, List.mem_cons] at hm
        rcases hm with hm | hm
        · exact absurd hm hne
        · simp at hm

/-- C5 witness: the outlier cycle of the counterexample satisfies the
amended condition (address well-formed, count above 3000). -/
theorem c5_start_directive_condition_witness :
    "0xdead 3001" ∈ (monitorCycle initMonState "0xdead" 3001).2 ∧
      "0xdead 3001" ≠ stopSig ∧
      (containsOx "0xdead".data = true ∧
        (3000 < (3001 : ℤ) ∨
          (80 < adjustedCount initMonState 3001 ∧
            judge_delay (updatedWindow initMonState 3001) (fin3 initMonState.index) = true))) :=
  ⟨by decide, by decide,
    c5_start_directive_condition initMonState "0xdead" 3001 "0xdead 3001"
      (by decide) (by decide)⟩

/-- C6 counterexample: starting from the monitor's initial window (all
three slots 500, all mitigation flags true, interval 500 ms), the very
first cycle of the noise scenario `[500, 10, 500]` already hands the start
directive `"0xdead 500"` to the outbound channel — the initial window
`[500,500,500]` has zero variance and mean 500 ≥ 100, so `judge_delay`
accepts it. -/
theorem c6_counterexample :
    ((monitorRun initMonState
        [("0xdead", 500), ("0xdead", 10), ("0xdead", 500)]).2).head? =
      some "0xdead 500" ∧ "0xdead 500" ≠ stopSig := by
  decide

/-- C6 (amended): from the initial state, the three cycles observing
`500, 10, 500` produce exactly the directives
`start "0xdead 500", stop, start "0xdead 10", stop`: the first cycle
mitigates (zero-variance window), the second mitigates as well (the noise
blend lifts 10 to 338, and the window `[500,338,500]` passes the combined
0.35/0.35 test), and only the third cycle sends nothing. -/
theorem c6_noise_trace :
    (monitorRun initMonState
        [("0xdead", 500), ("0xdead", 10), ("0xdead", 500)]).2 =
      ["0xdead 500", "0x00000 0", "0xdead 10", "0x00000 0"] := by
  decide

/-- C7: a cycle whose raw access count exceeds 3000 leaves the slot's
stored value unchanged: the outlier branch restores the previous value,
regardless of what `judge_delay` would return on the window. -/
theorem c7_outlier_restores_slot (st : MonState) (addr : String) (acc_num : ℤ)
    (h : 3000 < acc_num) :
    (monitorCycle st addr acc_num).1.last_addr_acc (fin3 st.index) =
      st.last_addr_acc (fin3 st.index) := by
  simp only [monitorCycle]
  rw [if_pos h]
  simp [Function.update_same]

/-- C7 witness: the outlier count 3001 at the initial state leaves slot 0
at its previous value 500. -/
theorem c7_outlier_restores_slot_witness :
    3000 < (3001 : ℤ) ∧
      (monitorCycle initMonState "0xbeef" 3001).1.last_addr_acc (fin3 initMonState.index) =
        initMonState.last_addr_acc (fin3 initMonState.index) :=
  ⟨by decide, c7_outlier_restores_slot initMonState "0xbeef" 3001 (by decide)⟩

/-- Appending one cycle's messages in front of a trace does not affect the
scan: a cycle hands over either nothing, or a start directive immediately
followed by the stop directive, or the stop directive alone, and in every
case the scanner is back in the inactive state afterwards. -/
theorem monitorCycle_msgs_scan (st : MonState) (a : String) (n : ℤ)
    (l : List String) :
    scanOK false ((monitorCycle st a n).2 ++ l) = scanOK false l := by
  simp only [monitorCycle]
  by_cases h1 : 3000 < n
  · rw [if_pos h1]
    by_cases hc : containsOx a.data = true
    · rw [if_pos hc]
      by_cases heq : (a ++ " " ++ toString n) = stopSig <;>
        simp [scanOK, heq]
    · rw [if_neg hc]
      simp [scanOK]
  · rw [if_neg h1]
    by_cases h2 : (decide (adjustedCount st n ≤ 80) ||
        !judge_delay (updatedWindow st n) (fin3 st.index)) = true
    · rw [if_pos h2]
      simp [scanOK]
    · rw [if_neg h2]
      by_cases hc : containsOx a.data = true
      · rw [if_pos hc]
        by_cases heq : (a ++ " " ++ toString n) = stopSig <;>
          simp [scanOK, heq]
      · rw [if_neg hc]
        simp [scanOK]

/-- C8: over any sequence of observed cycles, the trace of directives the
control loop hands to the outbound channel never contains two start
directives without an intervening stop directive `"0x00000 0"`: scanning
the trace with an "active" flag (set by a start, cleared by a stop) never
encounters a start while one is active, so at most one mitigation
directive is active at any time. -/
theorem c8_no_two_starts (st : MonState) (inputs : List (String × ℤ)) :
    scanOK false (monitorRun st inputs).2 = true := by
  induction inputs generalizing st with
  | nil => rfl
  | cons p rest ih =>
    obtain ⟨a, n⟩ := p
    show scanOK false ((monitorCycle st a n).2 ++
      (monitorRun (monitorCycle st a n).1 rest).2) = true
    rw [monitorCycle_msgs_scan]
    exact ih _

/-! ### Decoder round-trip -/

theorem encodeWord_length (w : ℕ) : (encodeWord w).length = 8 := rfl

theorem chunks8_append8 (l : List ℕ) (hl : l.length = 8) (rest : List ℕ) :
    chunks8 (l ++ rest) = l :: chunks8 rest := by
  match l, hl with
  | [b0, b1, b2, b3, b4, b5, b6, b7], _ => rfl

theorem leVal_encodeWord (w : ℕ) : leVal (encodeWord w) = w % 2 ^ 64 := by
  simp only [encodeWord, leVal]
  norm_num
  omega

theorem int64OfChunk_encodeWord (w : ℕ) :
    int64OfChunk (encodeWord w) = word64 w := by
  unfold int64OfChunk
  rw [leVal_encodeWord]
  unfold word64
  rw [show w % 2 ^ 64 % 2 ^ 64 = w % 2 ^ 64 by omega]

/-- Processing one well-formed 24-byte record from a state whose word index
is at a record boundary: the record's address is appended, its count stored,
and the index advances by 3. -/
theorem readStep_triple (st : LogState) (m : ℕ) (hidx : st.index = 3 * m)
    (t : ℕ × ℕ × ℕ) :
    readStep (readStep (readStep st (encodeWord t.1)) (encodeWord t.2.1))
        (encodeWord t.2.2) =
      { k := specCount t
        addr := specAddr t
        index := st.index + 3
        loc := st.index + 2
        addrs_order := st.addrs_order ++ [specAddr t]
        addr_access := storeCount st.addr_access t } := by
  have e0 : st.index % 3 = 0 := by omega
  have e1 : ¬(st.index + 1) % 3 = 0 := by omega
  have e2 : ¬(st.index + 2) % 3 = 0 := by omega
  have n1 : ¬st.index = st.index + 2 := by omega
  have n2 : ¬st.index + 1 = st.index + 2 := by omega
  simp only [readStep, encodeWord_length, int64OfChunk_encodeWord, e0, e1, e2,
    if_true, if_false, reduceIte]
  simp only [n1, n2, if_false, if_true, reduceIte, specAddr, specCount, storeCount]
  rw [show st.index + 1 + 1 + 1 = st.index + 3 from by omega]
  rfl

theorem decode_loop (ts : List (ℕ × ℕ × ℕ)) :
    ∀ (st : LogState) (m : ℕ), st.index = 3 * m →
      ((chunks8 (encodeLog ts)).foldl readStep st).addrs_order =
          st.addrs_order ++ ts.map specAddr ∧
        ((chunks8 (encodeLog ts)).foldl readStep st).addr_access =
          updAll st.addr_access ts := by
  induction ts with
  | nil =>
    intro st m hidx
    simp [encodeLog, chunks8, updAll]
  | cons t ts ih =>
    intro st m hidx
    have hbytes : encodeLog (t :: ts) =
        encodeWord t.1 ++ (encodeWord t.2.1 ++ (encodeWord t.2.2 ++ encodeLog ts)) := by
      simp [encodeLog, encodeTriple, List.append_assoc]
    rw [hbytes, chunks8_append8 _ (encodeWord_length _),
      chunks8_append8 _ (encodeWord_length _), chunks8_append8 _ (encodeWord_length _),
      List.foldl_cons, List.foldl_cons, List.foldl_cons,
      readStep_triple st m hidx t]
    have h' := ih { k := specCount t
                    addr := specAddr t
                    index := st.index + 3
                    loc := st.index + 2
                    addrs_order := st.addrs_order ++ [specAddr t]
                    addr_access := storeCount st.addr_access t } (m + 1) (by simp; omega)
    refine ⟨?_, ?_⟩
    · rw [h'.1]
      simp
    · rw [h'.2]
      rfl

theorem updAll_eq_lastCount (ts : List (ℕ × ℕ × ℕ)) :
    ∀ (f : String → Option ℤ) (a : String),
      updAll f ts a = match lastCount ts a with
        | some c => some c
        | none => f a := by
  induction ts with
  | nil =>
    intro f a
    simp [updAll, lastCount]
  | cons t ts ih =>
    intro f a
    have hl : lastCount (t :: ts) a =
        match lastCount ts a with
        | some c => some c
        | none => if a = specAddr t then some (specCount t) else none := by
      unfold lastCount
      simp only [List.reverse_cons, List.find?_append]
      rcases hf : ts.reverse.find? (fun t => specAddr t == a) with _ | t'
      · simp only [hf, Option.none_or]
        by_cases ha : a = specAddr t
        · rw [List.find?_cons_of_pos _ (by simp [ha])]
          simp [ha]
        · rw [List.find?_cons_of_neg _ (by simp; exact fun hx => ha hx.symm)]
          simp [ha]
      · simp [hf]
    rw [hl]
    show updAll (storeCount f t) ts a = _
    rw [ih (storeCount f t) a]
    rcases hc : lastCount ts a with _ | c
    · by_cases ha : a = specAddr t <;> simp [storeCount, ha]
    · simp

/-- C3: a log file consisting of exactly the well-formed 24-byte records
`ts` decodes to exactly the `ts.length` address strings in file order
(duplicates keeping their positions), with the mapping binding each address
to the count of its last record; a missing or unreadable file yields empty
results, not an error. -/
theorem c3_decoder_roundtrip (ts : List (ℕ × ℕ × ℕ)) :
    (read_sample_logs (some (encodeLog ts))).1 = ts.map specAddr ∧
      (∀ a, (read_sample_logs (some (encodeLog ts))).2 a = lastCount ts a) ∧
      read_sample_logs none = ([], fun _ => none) := by
  have h := decode_loop ts initLogState 0 rfl
  refine ⟨?_, ?_, rfl⟩
  · show ((chunks8 (encodeLog ts)).foldl readStep initLogState).addrs_order = _
    rw [h.1]
    rfl
  · intro a
    show ((chunks8 (encodeLog ts)).foldl readStep initLogState).addr_access a = _
    rw [h.2, updAll_eq_lastCount ts _ a]
    rcases lastCount ts a with _ | c
    · rfl
    · rfl

/-- C4 (code evidence): appending a single extra byte after one well-formed
record `(5, 7, 9)` changes the decode: the loop body runs on the short
1-byte read whose failed `binary.Read` leaves `k` at the stale value 9, and
since the word index is at a record boundary the decoder appends the
phantom address `"0x9"` — the claim's "same N ordered records" fails. -/
theorem c4_truncation_bug :
    (read_sample_logs (some (encodeLog [(5, 7, 9)] ++ [0]))).1 = ["0x5", "0x9"] ∧
      (read_sample_logs (some (encodeLog [(5, 7, 9)]))).1 = ["0x5"] := by
  decide

/-! ### Profiler orchestration -/

theorem chk_prerequisites_eq_false (env : SysEnv) :
    chk_prerequisites env = false ↔
      ((env.dbgfsIsDir = false ∧ env.insmodOk = false) ∨ env.pidsFileGood = false) := by
  unfold chk_prerequisites
  cases env.dbgfsIsDir <;> cases env.insmodOk <;> cases env.pidsFileGood <;> simp

/-- C9: `get_target_addr` reports failure exactly when no target process was
found, or the kernel module directory was absent and insertion failed, or the
`pids` control file is absent or a directory, or module removal failed, or
the decoded log is empty — and it never retries internally (each of these
conditions ends the single pass).  On success it returns the decoder's first
ordered address together with that address's mapped access count (a Go map
lookup, 0 if unmapped). -/
theorem c9_get_target_addr (env : SysEnv) :
    ((get_target_addr env).2.2 = false ↔
      env.targets = [] ∨ (env.dbgfsIsDir = false ∧ env.insmodOk = false) ∨
        env.pidsFileGood = false ∨ env.rmmodOk = false ∨
        (read_sample_logs env.log).1 = []) ∧
    (∀ (a : String) (rest : List String), env.targets ≠ [] →
      chk_prerequisites env = true → env.rmmodOk = true →
      (read_sample_logs env.log).1 = a :: rest →
      get_target_addr env = (a, lookup0 (read_sample_logs env.log).2 a, true)) := by
  obtain ⟨tg, db, im, pf, rm, lg⟩ := env
  constructor
  · rcases tg with _ | ⟨p, tg'⟩
    · simp [get_target_addr]
    · cases db <;> cases im <;> cases pf <;> cases rm <;>
        simp only [get_target_addr, chk_prerequisites, exit_handler,
          Bool.not_true, Bool.not_false, if_true, if_false, reduceIte] <;>
        simp <;>
        rcases hord : (read_sample_logs lg).1 with _ | ⟨a, rest⟩ <;>
        simp [hord]
  · intro a rest htg hchk hrm hord
    rcases tg with _ | ⟨p, tg'⟩
    · exact absurd rfl htg
    · simp only [get_target_addr, hchk, exit_handler] at *
      simp [hrm, hord]

/-- C9 witness: with one target pid, the module directory present, a good
`pids` file, successful removal, and a log holding the single record
`(5, 7, 9)`, the call succeeds with the first decoded address `"0x5"` and
its count 9. -/
theorem c9_get_target_addr_witness :
    get_target_addr
        { targets := ["7"], dbgfsIsDir := true, insmodOk := true,
          pidsFileGood := true, rmmodOk := true,
          log := some (encodeLog [(5, 7, 9)]) } = ("0x5", 9, true) := by
  have h := (c9_get_target_addr
      { targets := ["7"], dbgfsIsDir := true, insmodOk := true,
        pidsFileGood := true, rmmodOk := true,
        log := some (encodeLog [(5, 7, 9)]) }).2 "0x5" []
      (by decide) (by decide) rfl (by decide)
  rw [h]
  decide

end Cijitter
